import Mathlib

/-!
Verification development for the `ak_allocator` bump-pointer page allocator
(`src/allocator/page_allocator.h`).

The C++ `mem_pool<_Tp, Logger>` struct is shallowly embedded below.  Addresses
and `std::size_t` values are modelled as `Nat`; machine arithmetic is made
explicit with `% U64` (and `wsub` for wrapping subtraction) exactly at the
operations the C++ performs on `uint64_t`/`std::size_t` values.  The null
pointer is the address `0`.  `sizeof(elem_type)` — the element size rounded up
to its alignment — is the parameter `slot` of every operation that uses it.

The host platform (spec §6: page-size query, `mmap`, `mprotect`, `munmap`) is
modelled by the `Host` record; `mprotect`'s result on a given page is an oracle
`mprot`, pre-composed with the POSIX page-alignment requirement.  The set of
pages made read/write so far is tracked in the ghost field `committed` (it is
operating-system state, not a field of the C++ struct).  The logging hook is a
no-op side channel (spec §6) and is not modelled.
-/

set_option autoImplicit false

/-- Numeric wrap-around bound of the 64-bit machine words (`std::size_t`,
`uint64_t`, pointers) used throughout the C++ source. -/
def U64 : Nat := 2 ^ 64

/-- Wrapping 64-bit subtraction: the value of `a - b` computed on
`std::size_t`/`uint64_t` operands. -/
def wsub (a b : Nat) : Nat := (a + (U64 - b % U64)) % U64

/-- Modelled from the spec: the four host-platform services of §6 that the
arena consumes, none of which live in the repository.  `sys_pagesize` is the
result of the page-granularity query (`sysconf(_SC_PAGE_SIZE)`, assumed to
succeed as §6 requires the service to be available).  `mmap_base` is the
address handed out by the one reservation call (`none` models `MAP_FAILED`).
`mprot a` tells whether changing protection on the page at `a` succeeds once
the POSIX alignment requirement is met (`false` models resource-limit
failures, spec §7 "commit failure").  `munmap_ok` tells whether releasing the
mapping succeeds. -/
structure Host where
  sys_pagesize : Nat
  mmap_base : Option Nat
  mprot : Nat → Bool
  munmap_ok : Bool

/-- State of `__detail::mem_pool`: one field per C++ data member (addresses as
`Nat`, `0` for `nullptr`), plus the ghost field `committed` recording which
page addresses the operating system has made read/write (the protection map
that `mprotect` mutates). -/
structure mem_pool where
  begin_gp : Nat
  end_gp : Nat
  allocation_area : Nat
  first_not_commited : Nat
  pages_mmaped : Nat
  occupied_slots : Nat
  free_slots_left : Nat
  pagesize : Nat
  committed : List Nat
  deriving DecidableEq

/-- Default-constructed `mem_pool`: all pointers null, all counters zero, and
no page committed. -/
def pool0 : mem_pool := ⟨0, 0, 0, 0, 0, 0, 0, 0, []⟩

/-- Default page count `allocate_pgs` used when `init_pool` is asked for zero
pages. -/
def allocate_pgs : Nat := 10

/-- Translation of `mem_pool::owns`: true iff
`val > allocation_area && val < begin_gp`.  (This is the comparison the source
actually performs; `begin_gp` is the start of the *leading* guard page.) -/
def owns (s : mem_pool) (val : Nat) : Bool :=
  decide (s.allocation_area < val ∧ val < s.begin_gp)

/-- Modelled from the spec: the host call that changes page protection
(§6 "one call to change the access protection of a page-aligned sub-range").
POSIX `mprotect` fails with `EINVAL` when the address is not aligned to the
page granularity; beyond that the oracle `E.mprot` decides success. -/
def mprotect_ok (E : Host) (ps pg : Nat) : Bool :=
  decide (pg % ps = 0) && E.mprot pg

/-- Translation of `mem_pool::commit_page`: reject `pg` outside
`[begin_gp + pagesize, end_gp]`, then try `mprotect`; on success record the
page as committed and set `first_not_commited` to one page past `pg`. -/
def commit_page (E : Host) (s : mem_pool) (pg : Nat) : Bool × mem_pool :=
  if pg < (s.begin_gp + s.pagesize) % U64 ∨ s.end_gp < pg then (false, s)
  else if mprotect_ok E s.pagesize pg then
    (true, { s with first_not_commited := (pg + s.pagesize) % U64,
                    committed := pg :: s.committed })
  else (false, s)

/-- Translation of the `while (page_to_commit < pg)` loop inside
`mem_pool::checked_range_commit`, committing pages one at a time and stopping
at the first failure.  The loop advances by `pagesize` bytes per iteration, so
it is given `stop - cur` as structural fuel, which bounds the iteration count
whenever `0 < ps` (with `ps = 0` and successful commits the C++ loop does not
terminate; that configuration is unreachable from an initialized pool). -/
def commit_loop (E : Host) (ps : Nat) : Nat → Nat → Nat → mem_pool → Bool × mem_pool
  | 0, _, _, s => (true, s)
  | fuel + 1, cur, stop, s =>
    if cur < stop then
      let r := commit_page E s cur
      if r.1 then commit_loop E ps fuel (cur + ps) stop r.2 else (false, r.2)
    else (true, s)

/-- Translation of `mem_pool::checked_range_commit`: if `pg` lies past
`first_not_commited`, commit pages from `first_not_commited` up to (excluding)
`pg`; a partial failure leaves `first_not_commited` at one past the last page
that did commit. -/
def checked_range_commit (E : Host) (s : mem_pool) (pg : Nat) : Bool × mem_pool :=
  if s.first_not_commited < pg then
    commit_loop E s.pagesize (pg - s.first_not_commited) s.first_not_commited pg s
  else (true, s)

/-- Translation of `mem_pool::deinit_pool`: fail when already deinitialized,
otherwise `munmap` the whole mapping and zero every field except `pagesize`
(the C++ keeps the cached page size).  Releasing the mapping removes all page
protections, so the ghost `committed` set empties. -/
def deinit_pool (E : Host) (s : mem_pool) : Bool × mem_pool :=
  if s.begin_gp = 0 then (false, s)
  else if E.munmap_ok then
    (true, { s with begin_gp := 0, end_gp := 0, allocation_area := 0,
                    first_not_commited := 0, pages_mmaped := 0,
                    occupied_slots := 0, free_slots_left := 0, committed := [] })
  else (false, s)

/-- Field assignment performed by `mem_pool::init_pool` after a successful
`mmap` at base address `b` of `pgs` pages of `ps` bytes: the mapping start is
the leading guard page, the usable area starts one page in, the trailing guard
page starts `(pgs - 1)` pages in, the commit frontier starts one page past the
usable area start, and the free-slot count is derived from the usable byte
count `pgs * ps - 2 * ps` (a wrapping `std::size_t` subtraction). -/
def init_fields (slot pgs ps b : Nat) (s : mem_pool) : mem_pool :=
  { s with
    begin_gp := b,
    pages_mmaped := pgs,
    allocation_area := (b + ps) % U64,
    end_gp := (b + (pgs - 1) * ps) % U64,
    first_not_commited := ((b + ps) % U64 + ps) % U64,
    occupied_slots := 0,
    free_slots_left := wsub (pgs * ps) (2 * ps) / slot }

/-- Body of `mem_pool::init_pool` once the page size is cached: fail when
already initialized, substitute the default page count for zero, reserve the
mapping, lay out the fields, and commit the first usable page (rolling back
through `deinit_pool` if that commit fails).  A failed `mmap` leaves
`begin_gp` equal to `MAP_FAILED`, i.e. the all-ones address `U64 - 1`, exactly
as in the C++. -/
def init_pool_aux (E : Host) (slot pgs0 : Nat) (s : mem_pool) : Bool × mem_pool :=
  if s.begin_gp ≠ 0 then (false, s)
  else
    match E.mmap_base with
    | none => (false, { s with begin_gp := U64 - 1 })
    | some b =>
      match commit_page E (init_fields slot (if pgs0 = 0 then allocate_pgs else pgs0) s.pagesize b s)
          ((b + s.pagesize) % U64) with
      | (true, t) => (true, t)
      | (false, t) => (false, (deinit_pool E t).2)

/-- Translation of `mem_pool::init_pool`: cache the page size on first use
(the page-size query is assumed to succeed, see `Host`), then run the body. -/
def init_pool (E : Host) (slot pgs0 : Nat) (s0 : mem_pool) : Bool × mem_pool :=
  init_pool_aux E slot pgs0
    (if s0.pagesize = 0 then { s0 with pagesize := E.sys_pagesize } else s0)

/-- Body of `mem_pool::get_allocation` on an initialized pool: fail on
exhausted capacity, commit the byte range covering slots
`[occupied_slots, occupied_slots + n)` — its last byte is
`allocation_area + (occupied_slots + n) * slot - 1`, computed with wrapping
`uint64_t` arithmetic — and on success return the bump pointer
`allocation_area + occupied_slots` (an `elem_type*`, hence scaled by `slot`)
before advancing the two counters. -/
def get_alloc_core (E : Host) (slot n : Nat) (s : mem_pool) : Option Nat × mem_pool :=
  if s.free_slots_left < n then (none, s)
  else
    match checked_range_commit E s
        (wsub (s.allocation_area + (s.occupied_slots + n) * slot) 1) with
    | (false, t) => (none, t)
    | (true, t) =>
      (some ((t.allocation_area + t.occupied_slots * slot) % U64),
       { t with occupied_slots := (t.occupied_slots + n) % U64,
                free_slots_left := t.free_slots_left - n })

/-- Translation of `mem_pool::get_allocation`: lazily initialize with the
default page count when `begin_gp` is null, then run the allocation body. -/
def get_allocation (E : Host) (slot n : Nat) (s0 : mem_pool) : Option Nat × mem_pool :=
  if s0.begin_gp = 0 then
    match init_pool E slot 0 s0 with
    | (false, t) => (none, t)
    | (true, t) => get_alloc_core E slot n t
  else get_alloc_core E slot n s0

/-- Translation of `mem_pool::extend_allocation`: the requested delta
`allocate_nmbr = new_nmbr - old_nmbr` is a wrapping `std::size_t` subtraction
(written out as `wsub new_nmbr old_nmbr` at each use site); after the null,
initialization and capacity guards, the block may only grow if
`ptr + old_nmbr` (in `elem_type` units) is exactly the bump frontier
`allocation_area + occupied_slots`; then the new byte range is committed as in
`get_alloc_core` and the counters advance by the delta. -/
def extend_allocation (E : Host) (slot ptr old_nmbr new_nmbr : Nat) (s : mem_pool) :
    Bool × mem_pool :=
  if ptr = 0 then (false, s)
  else if s.begin_gp = 0 then (false, s)
  else if s.free_slots_left < wsub new_nmbr old_nmbr then (false, s)
  else if (ptr + old_nmbr * slot) % U64 ≠
      (s.allocation_area + s.occupied_slots * slot) % U64 then (false, s)
  else
    match checked_range_commit E s
        (wsub (s.allocation_area + (s.occupied_slots + wsub new_nmbr old_nmbr) * slot) 1) with
    | (false, t) => (false, t)
    | (true, t) =>
      (true,
       { t with occupied_slots := (t.occupied_slots + wsub new_nmbr old_nmbr) % U64,
                free_slots_left := t.free_slots_left - wsub new_nmbr old_nmbr })

/-- Translation of `mem_pool::delete_allocation`: after the null and
initialization guards it unconditionally returns `true`, subtracting `nmbr`
from `occupied_slots` and adding it to `free_slots_left` in wrapping
`std::size_t` arithmetic, with no validation of either argument. -/
def delete_allocation (ptr nmbr : Nat) (s : mem_pool) : Bool × mem_pool :=
  if ptr = 0 then (false, s)
  else if s.begin_gp = 0 then (false, s)
  else
    (true, { s with occupied_slots := wsub s.occupied_slots nmbr,
                    free_slots_left := (s.free_slots_left + nmbr) % U64 })

/-- Value of `PTRDIFF_MAX` on the 64-bit target (`__PTRDIFF_MAX__`). -/
def PTRDIFF_MAX : Nat := 2 ^ 63 - 1

/-- Translation of `page_allocator::_M_max_size`:
`std::size_t(__PTRDIFF_MAX__) / sizeof(_Tp)`.  `tpsize` is `sizeof(_Tp)` (the
raw element size, not the aligned slot size). -/
def M_max_size (tpsize : Nat) : Nat := PTRDIFF_MAX / tpsize

/-- Translation of `page_allocator::max_size`: the configured object ceiling
`objs_number` (the `_MaxObjects` template argument) when nonzero, else the
theoretical maximum. -/
def pa_max_size (objs tpsize : Nat) : Nat :=
  if objs ≠ 0 then objs else M_max_size tpsize

/-- Translation of `page_allocator::allocate`: throw (modelled as a failure
that leaves the pool untouched) when `__n` exceeds the theoretical maximum, or
when `occupied_slots + 1` exceeds `max_size()` — note the second guard tests
the current occupancy, not `__n` — and otherwise delegate to
`mem_pool::get_allocation`. -/
def pa_allocate (E : Host) (tpsize slot objs n : Nat) (s : mem_pool) :
    Option Nat × mem_pool :=
  if M_max_size tpsize < n then (none, s)
  else if pa_max_size objs tpsize < (s.occupied_slots + 1) % U64 then (none, s)
  else get_allocation E slot n s

/-! ### State-preservation predicates -/

/-- Two pool states that agree on every field except the commit frontier and
the ghost protection map: the page-commit helpers never touch anything else. -/
def SameCore (s t : mem_pool) : Prop :=
  t.begin_gp = s.begin_gp ∧ t.end_gp = s.end_gp ∧
  t.allocation_area = s.allocation_area ∧ t.pages_mmaped = s.pages_mmaped ∧
  t.occupied_slots = s.occupied_slots ∧ t.free_slots_left = s.free_slots_left ∧
  t.pagesize = s.pagesize

/-- Everything a fully successful run of the commit loop (or of
`checked_range_commit`) guarantees about the resulting state: no core field
changed, no page was decommitted, and the frontier only advanced, staying
page-aligned and at or above the first usable page. -/
def LoopPost (ps : Nat) (s t : mem_pool) : Prop :=
  SameCore s t ∧ s.committed ⊆ t.committed ∧
  s.first_not_commited ≤ t.first_not_commited ∧
  t.first_not_commited % ps = 0 ∧
  s.begin_gp + ps ≤ t.first_not_commited

/-! ### Well-formed initialized pools -/

/-- Invariants of an initialized pool: they hold right after a successful
`init_pool` (with a page-aligned, nonzero `mmap` base and a mapping whose last
address fits in 64 bits) and are preserved by `get_allocation` and
`extend_allocation`.  `cap_le` states that the whole slot capacity
(`occupied_slots + free_slots_left`) fits between the usable area start and
the trailing guard page. -/
structure Ready (slot : Nat) (s : mem_pool) : Prop where
  slot_pos : 0 < slot
  ps_pos : 0 < s.pagesize
  init_ne : s.begin_gp ≠ 0
  area_eq : s.allocation_area = s.begin_gp + s.pagesize
  cap_le : s.allocation_area + (s.occupied_slots + s.free_slots_left) * slot ≤ s.end_gp
  fnc_al : s.first_not_commited % s.pagesize = 0
  fnc_lo : s.begin_gp + s.pagesize ≤ s.first_not_commited
  no_ovf : s.end_gp + s.pagesize < U64

/-! ### Allocation postconditions -/

/-- What a successful allocation (or extension) of `n` fresh slots guarantees:
counters move by `n`, the layout fields are untouched, the frontier only
advances, no page is decommitted, and the pool stays well-formed. -/
def AllocPost (slot : Nat) (s t : mem_pool) (n : Nat) : Prop :=
  t.occupied_slots = s.occupied_slots + n ∧
  t.free_slots_left = s.free_slots_left - n ∧
  t.begin_gp = s.begin_gp ∧ t.end_gp = s.end_gp ∧
  t.allocation_area = s.allocation_area ∧ t.pagesize = s.pagesize ∧
  t.pages_mmaped = s.pages_mmaped ∧
  s.first_not_commited ≤ t.first_not_commited ∧
  s.committed ⊆ t.committed ∧
  Ready slot t

/-- A straight-line sequence of `get_allocation` calls: returns the list of
results in call order together with the final pool state. -/
def alloc_seq (E : Host) (slot : Nat) : List Nat → mem_pool → List (Option Nat) × mem_pool
  | [], s => ([], s)
  | n :: ns, s =>
    ((get_allocation E slot n s).1 ::
        (alloc_seq E slot ns (get_allocation E slot n s).2).1,
     (alloc_seq E slot ns (get_allocation E slot n s).2).2)

/-! ### Concrete host and pool instances used by witnesses and counterexamples -/

/-- A host with 4096-byte pages that reserves at page-aligned address `4096`,
never refuses a protection change, and releases mappings successfully. -/
def E0 : Host := ⟨4096, some 4096, fun _ => true, true⟩

/-- Pool obtained by `init_pool` with 4 pages of 4096 bytes and 8-byte slots:
the §8 scenario of the spec (usable bytes 8192, 1024 free slots). -/
def s4 : mem_pool := (init_pool E0 8 4 pool0).2

/-- Pool obtained by `init_pool` with 5 pages of 4096 bytes and 8-byte slots. -/
def s5 : mem_pool := (init_pool E0 8 5 pool0).2

/-- The pool `s5` after a range commit up to byte `12289`, which commits the
page at `12288` and advances the frontier to `16384`. -/
def s5c : mem_pool := (checked_range_commit E0 s5 12289).2

/-- Conclusion of the amended C7: on an initialized pool, a range commit whose
end lies at or below the frontier is an exact no-op; the range commit,
allocation, extension and free operations never move the frontier backward;
and none of the operations — direct `commit_page` included — ever removes a
page from the protection map (only full teardown does). -/
def FrontierConcl (E : Host) (slot : Nat) (s : mem_pool) : Prop :=
  (∀ pg, pg ≤ s.first_not_commited → checked_range_commit E s pg = (true, s)) ∧
  (∀ pg, s.first_not_commited ≤ (checked_range_commit E s pg).2.first_not_commited ∧
    s.committed ⊆ (checked_range_commit E s pg).2.committed) ∧
  (∀ n, s.first_not_commited ≤ (get_allocation E slot n s).2.first_not_commited ∧
    s.committed ⊆ (get_allocation E slot n s).2.committed) ∧
  (∀ p a b, s.first_not_commited ≤
      (extend_allocation E slot p a b s).2.first_not_commited ∧
    s.committed ⊆ (extend_allocation E slot p a b s).2.committed) ∧
  (∀ p n, s.first_not_commited ≤ (delete_allocation p n s).2.first_not_commited ∧
    s.committed ⊆ (delete_allocation p n s).2.committed) ∧
  (∀ pg, s.committed ⊆ (commit_page E s pg).2.committed)

/-! ### Conclusion predicate of claim C3 -/

/-- Conclusion of C3: two consecutive successful allocations of `a` then `b`
slots return pointers exactly `a * slot` bytes apart, and in any straight-line
allocation sequence within capacity the `k`-th pointer is `allocation_area`
plus `slot` bytes per previously requested slot. -/
def BumpConcl (E : Host) (slot : Nat) (s : mem_pool) : Prop :=
  (∀ a b p1 p2 : Nat,
    (get_allocation E slot a s).1 = some p1 →
    (get_allocation E slot b (get_allocation E slot a s).2).1 = some p2 →
    p2 = p1 + a * slot) ∧
  (∀ ns : List Nat, ns.sum ≤ s.free_slots_left → ∀ k, k < ns.length →
    (alloc_seq E slot ns s).1[k]? =
      some (some (s.allocation_area + (ns.take k).sum * slot)))

/-! ### Conclusion predicate of claim C1 -/

/-- Conclusion of C1.  First conjunct: for a non-null pointer with
`old ≤ new` (within 64-bit range), sufficient free slots and a willing host,
`extend_allocation` succeeds exactly when `ptr + old` slots is the current
bump frontier `allocation_area + occupied_slots`; on success both counters
move by `new - old` (the pointer itself is passed by value and trivially
unchanged) and a subsequent in-capacity allocation of `c` slots returns
exactly `ptr + new * slot`.  Second conjunct: after an intervening successful
allocation of `b ≥ 1` slots, extending the earlier block fails for every
requested new size. -/
def ExtendSpecConcl (E : Host) (slot : Nat) (s : mem_pool) : Prop :=
  (∀ ptr old_n new_n : Nat, ptr ≠ 0 → old_n ≤ new_n → new_n < U64 →
    new_n - old_n ≤ s.free_slots_left → ptr + old_n * slot < U64 →
    (((extend_allocation E slot ptr old_n new_n s).1 = true ↔
        ptr + old_n * slot = s.allocation_area + s.occupied_slots * slot) ∧
      ((extend_allocation E slot ptr old_n new_n s).1 = true →
        (extend_allocation E slot ptr old_n new_n s).2.occupied_slots =
            s.occupied_slots + (new_n - old_n) ∧
        (extend_allocation E slot ptr old_n new_n s).2.free_slots_left =
            s.free_slots_left - (new_n - old_n) ∧
        ∀ c, c ≤ (extend_allocation E slot ptr old_n new_n s).2.free_slots_left →
          (get_allocation E slot c
              (extend_allocation E slot ptr old_n new_n s).2).1 =
            some (ptr + new_n * slot)))) ∧
  (∀ a b p q : Nat, 1 ≤ b →
    (get_allocation E slot a s).1 = some p →
    (get_allocation E slot b (get_allocation E slot a s).2).1 = some q →
    ∀ new_n : Nat,
      (extend_allocation E slot p a new_n
        (get_allocation E slot b (get_allocation E slot a s).2).2).1 = false)

/-! ### Lemmas and claim theorems -/

/-! ### Arithmetic facts about the wrapping operations -/

lemma U64_pos : 0 < U64 := by decide

lemma U64_val : U64 = 18446744073709551616 := by norm_num [U64]

/-- On operands below `2 ^ 64` with no borrow, the wrapping subtraction is the
ordinary one. -/
lemma wsub_eq_sub {a b : Nat} (h1 : b ≤ a) (h2 : a < U64) : wsub a b = a - b := by
  simp only [wsub, U64_val] at *
  omega

/-- On operands below `2 ^ 64` with a borrow, the wrapping subtraction wraps
around `2 ^ 64`. -/
lemma wsub_wrap {a b : Nat} (h1 : a < b) (h2 : b < U64) : wsub a b = U64 - (b - a) := by
  simp only [wsub, U64_val] at *
  omega

lemma wsub_lt (a b : Nat) : wsub a b < U64 := Nat.mod_lt _ U64_pos

/-- The wrapping subtraction is subtraction in `ZMod (2 ^ 64)`. -/
lemma wsub_zmod (a b : Nat) :
    ((wsub a b : Nat) : ZMod U64) = (a : ZMod U64) - (b : ZMod U64) := by
  have hb : b % U64 ≤ U64 := le_of_lt (Nat.mod_lt _ U64_pos)
  simp only [wsub]
  rw [ZMod.natCast_mod, Nat.cast_add, Nat.cast_sub hb, ZMod.natCast_self,
    ZMod.natCast_mod]
  ring

lemma sameCore_refl (s : mem_pool) : SameCore s s :=
  ⟨rfl, rfl, rfl, rfl, rfl, rfl, rfl⟩

lemma sameCore_trans {s t u : mem_pool} (h1 : SameCore s t) (h2 : SameCore t u) :
    SameCore s u := by
  obtain ⟨a1, a2, a3, a4, a5, a6, a7⟩ := h1
  obtain ⟨b1, b2, b3, b4, b5, b6, b7⟩ := h2
  exact ⟨b1.trans a1, b2.trans a2, b3.trans a3, b4.trans a4, b5.trans a5,
    b6.trans a6, b7.trans a7⟩

/-! ### Behaviour of `commit_page` -/

/-- `commit_page` can only change the commit frontier and the protection map,
and never removes a page from the protection map. -/
lemma commit_page_core (E : Host) (s : mem_pool) (pg : Nat) :
    SameCore s (commit_page E s pg).2 ∧
      s.committed ⊆ (commit_page E s pg).2.committed := by
  unfold commit_page
  by_cases h1 : pg < (s.begin_gp + s.pagesize) % U64 ∨ s.end_gp < pg
  · simp only [if_pos h1]
    exact ⟨sameCore_refl s, fun x hx => hx⟩
  · simp only [if_neg h1]
    by_cases h2 : mprotect_ok E s.pagesize pg = true
    · simp only [h2, if_true]
      exact ⟨⟨rfl, rfl, rfl, rfl, rfl, rfl, rfl⟩, fun x hx => List.mem_cons_of_mem _ hx⟩
    · simp only [h2, if_false]
      exact ⟨sameCore_refl s, fun x hx => hx⟩

/-- A failed `commit_page` call leaves the state exactly as it was. -/
lemma commit_page_fail {E : Host} {s : mem_pool} {pg : Nat}
    (h : (commit_page E s pg).1 = false) : (commit_page E s pg).2 = s := by
  unfold commit_page at h ⊢
  by_cases h1 : pg < (s.begin_gp + s.pagesize) % U64 ∨ s.end_gp < pg
  · rw [if_pos h1]
  · rw [if_neg h1] at h ⊢
    by_cases h2 : mprotect_ok E s.pagesize pg = true
    · rw [if_pos h2] at h
      exact absurd h (by simp)
    · rw [if_neg h2]

/-- A successful `commit_page` call happened inside the accepted address range
and moved the frontier to one page past `pg`. -/
lemma commit_page_succ {E : Host} {s : mem_pool} {pg : Nat}
    (h : (commit_page E s pg).1 = true) :
    (commit_page E s pg).2 =
      { s with first_not_commited := (pg + s.pagesize) % U64,
               committed := pg :: s.committed } ∧
      ¬(pg < (s.begin_gp + s.pagesize) % U64 ∨ s.end_gp < pg) := by
  by_cases h1 : pg < (s.begin_gp + s.pagesize) % U64 ∨ s.end_gp < pg
  · exfalso
    unfold commit_page at h
    rw [if_pos h1] at h
    exact absurd h (by simp)
  · refine ⟨?_, h1⟩
    unfold commit_page at h ⊢
    rw [if_neg h1] at h ⊢
    by_cases h2 : mprotect_ok E s.pagesize pg = true
    · rw [if_pos h2]
    · rw [if_neg h2] at h
      exact absurd h (by simp)

/-- In the accepted range, with an aligned page address and a willing host,
`commit_page` succeeds. -/
lemma commit_page_ok (E : Host) (s : mem_pool) (pg : Nat)
    (hσ : ∀ a, E.mprot a = true)
    (hovf : s.begin_gp + s.pagesize < U64)
    (hlo : s.begin_gp + s.pagesize ≤ pg) (hhi : pg ≤ s.end_gp)
    (hal : pg % s.pagesize = 0) :
    commit_page E s pg =
      (true, { s with first_not_commited := (pg + s.pagesize) % U64,
                      committed := pg :: s.committed }) := by
  have hm : mprotect_ok E s.pagesize pg = true := by
    simp [mprotect_ok, hal, hσ]
  unfold commit_page
  rw [Nat.mod_eq_of_lt hovf]
  rw [if_neg (by omega : ¬(pg < s.begin_gp + s.pagesize ∨ s.end_gp < pg))]
  simp only [hm, if_true]

/-! ### Behaviour of the page-commit loop -/

/-- Unfolding equation of `commit_loop` for an entered iteration. -/
lemma commit_loop_succ_lt {E : Host} {ps n cur stop : Nat} {s : mem_pool}
    (h : cur < stop) :
    commit_loop E ps (n + 1) cur stop s =
      if (commit_page E s cur).1 = true then
        commit_loop E ps n (cur + ps) stop (commit_page E s cur).2
      else (false, (commit_page E s cur).2) := by
  simp only [commit_loop, if_pos h]

/-- Unfolding equation of `commit_loop` when the loop guard fails. -/
lemma commit_loop_succ_ge {E : Host} {ps n cur stop : Nat} {s : mem_pool}
    (h : ¬cur < stop) :
    commit_loop E ps (n + 1) cur stop s = (true, s) := by
  simp only [commit_loop, if_neg h]

/-- The commit loop can only change the commit frontier and the protection
map, and never removes a page from the protection map. -/
lemma commit_loop_core (E : Host) (ps : Nat) :
    ∀ (fuel cur stop : Nat) (s : mem_pool),
      SameCore s (commit_loop E ps fuel cur stop s).2 ∧
        s.committed ⊆ (commit_loop E ps fuel cur stop s).2.committed := by
  intro fuel
  induction fuel with
  | zero =>
    intro cur stop s
    exact ⟨sameCore_refl s, fun x hx => hx⟩
  | succ n ih =>
    intro cur stop s
    by_cases h : cur < stop
    · rw [commit_loop_succ_lt h]
      obtain ⟨hc1, hc2⟩ := commit_page_core E s cur
      by_cases hb : (commit_page E s cur).1 = true
      · rw [if_pos hb]
        obtain ⟨ih1, ih2⟩ := ih (cur + ps) stop (commit_page E s cur).2
        exact ⟨sameCore_trans hc1 ih1, fun x hx => ih2 (hc2 hx)⟩
      · rw [if_neg hb]
        exact ⟨hc1, hc2⟩
    · rw [commit_loop_succ_ge h]
      exact ⟨sameCore_refl s, fun x hx => hx⟩

/-- Started (as `checked_range_commit` starts it) at the current frontier, the
commit loop never moves the frontier backward, whether it succeeds or not. -/
lemma commit_loop_mono (E : Host) (ps : Nat) :
    ∀ (fuel cur stop : Nat) (s : mem_pool),
      s.pagesize = ps → s.first_not_commited = cur → s.end_gp + ps < U64 →
      s.first_not_commited ≤ (commit_loop E ps fuel cur stop s).2.first_not_commited := by
  intro fuel
  induction fuel with
  | zero =>
    intro cur stop s _ _ _
    exact le_refl _
  | succ n ih =>
    intro cur stop s hps hcur hovf
    by_cases h : cur < stop
    · rw [commit_loop_succ_lt h]
      by_cases hb : (commit_page E s cur).1 = true
      · rw [if_pos hb]
        obtain ⟨ht, hrange⟩ := commit_page_succ hb
        have hhi : cur ≤ s.end_gp := by
          rcases not_or.mp hrange with ⟨_, h2⟩
          omega
        have hfn : (commit_page E s cur).2.first_not_commited = cur + ps := by
          rw [ht]
          show (cur + s.pagesize) % U64 = cur + ps
          rw [hps]
          exact Nat.mod_eq_of_lt (by omega)
        have hps' : (commit_page E s cur).2.pagesize = ps := by
          rw [ht]
          exact hps
        have hovf' : (commit_page E s cur).2.end_gp + ps < U64 := by
          rw [ht]
          exact hovf
        have hmono := ih (cur + ps) stop (commit_page E s cur).2 hps' hfn hovf'
        omega
      · rw [if_neg hb]
        have hb' : (commit_page E s cur).1 = false := by
          cases hcp : (commit_page E s cur).1
          · rfl
          · exact absurd hcp hb
        rw [commit_page_fail hb']
    · rw [commit_loop_succ_ge h]

/-- With a willing host, a page-aligned frontier inside the accepted range and
enough fuel, the commit loop commits every page up to `stop` and succeeds. -/
lemma commit_loop_ok (E : Host) (hσ : ∀ a, E.mprot a = true) (ps : Nat) (hpos : 0 < ps) :
    ∀ (fuel cur stop : Nat) (s : mem_pool),
      s.pagesize = ps → s.first_not_commited = cur →
      cur % ps = 0 → s.begin_gp + ps ≤ cur →
      stop ≤ s.end_gp + 1 → s.end_gp + ps < U64 →
      stop ≤ cur + fuel →
      (commit_loop E ps fuel cur stop s).1 = true ∧
        LoopPost ps s (commit_loop E ps fuel cur stop s).2 := by
  intro fuel
  induction fuel with
  | zero =>
    intro cur stop s hps hcur hal hlo _ _ _
    refine ⟨rfl, sameCore_refl s, fun x hx => hx, le_refl _, ?_, ?_⟩
    · show s.first_not_commited % ps = 0
      rw [hcur]
      exact hal
    · show s.begin_gp + ps ≤ s.first_not_commited
      rw [hcur]
      exact hlo
  | succ n ih =>
    intro cur stop s hps hcur hal hlo hstop hovf hfuel
    by_cases h : cur < stop
    · have hhi : cur ≤ s.end_gp := by omega
      have hcp := commit_page_ok E s cur hσ (by omega) (by rw [hps]; omega)
        hhi (by rw [hps]; exact hal)
      rw [commit_loop_succ_lt h, hcp]
      simp only [if_true]
      set t : mem_pool :=
        { s with first_not_commited := (cur + s.pagesize) % U64,
                 committed := cur :: s.committed } with ht
      have hfn : t.first_not_commited = cur + ps := by
        show (cur + s.pagesize) % U64 = cur + ps
        rw [hps]
        exact Nat.mod_eq_of_lt (by omega)
      have hrec := ih (cur + ps) stop t hps hfn
        (by rw [Nat.add_mod_right]; exact hal) (by show s.begin_gp + ps ≤ cur + ps; omega)
        hstop hovf (by omega)
      obtain ⟨hr1, hr2, hr3, hr4, hr5, hr6⟩ := hrec
      refine ⟨hr1, sameCore_trans ⟨rfl, rfl, rfl, rfl, rfl, rfl, rfl⟩ hr2,
        fun x hx => hr3 (List.mem_cons_of_mem _ hx), ?_, hr5, hr6⟩
      calc s.first_not_commited = cur := hcur
        _ ≤ cur + ps := Nat.le_add_right _ _
        _ = t.first_not_commited := hfn.symm
        _ ≤ _ := hr4
    · rw [commit_loop_succ_ge h]
      refine ⟨rfl, sameCore_refl s, fun x hx => hx, le_refl _, ?_, ?_⟩
      · show s.first_not_commited % ps = 0
        rw [hcur]
        exact hal
      · show s.begin_gp + ps ≤ s.first_not_commited
        rw [hcur]
        exact hlo

/-! ### Behaviour of `checked_range_commit` -/

/-- `checked_range_commit` can only change the commit frontier and the
protection map, and never removes a page from the protection map. -/
lemma crc_core (E : Host) (s : mem_pool) (pg : Nat) :
    SameCore s (checked_range_commit E s pg).2 ∧
      s.committed ⊆ (checked_range_commit E s pg).2.committed := by
  unfold checked_range_commit
  by_cases h : s.first_not_commited < pg
  · rw [if_pos h]
    exact commit_loop_core E s.pagesize _ _ _ s
  · rw [if_neg h]
    exact ⟨sameCore_refl s, fun x hx => hx⟩

/-- `checked_range_commit` never moves the commit frontier backward. -/
lemma crc_mono (E : Host) (s : mem_pool) (pg : Nat)
    (hovf : s.end_gp + s.pagesize < U64) :
    s.first_not_commited ≤ (checked_range_commit E s pg).2.first_not_commited := by
  unfold checked_range_commit
  by_cases h : s.first_not_commited < pg
  · rw [if_pos h]
    exact commit_loop_mono E s.pagesize _ _ _ s rfl rfl hovf
  · rw [if_neg h]

/-- A range request that does not reach past the commit frontier succeeds
without touching the state at all. -/
lemma crc_within (E : Host) (s : mem_pool) (pg : Nat)
    (h : pg ≤ s.first_not_commited) :
    checked_range_commit E s pg = (true, s) := by
  unfold checked_range_commit
  rw [if_neg (by omega)]

/-- With a willing host and the frontier invariants, `checked_range_commit`
succeeds on any end address up to the trailing guard page. -/
lemma crc_ok (E : Host) (s : mem_pool) (pg : Nat)
    (hσ : ∀ a, E.mprot a = true) (hpos : 0 < s.pagesize)
    (hal : s.first_not_commited % s.pagesize = 0)
    (hlo : s.begin_gp + s.pagesize ≤ s.first_not_commited)
    (hstop : pg ≤ s.end_gp + 1) (hovf : s.end_gp + s.pagesize < U64) :
    (checked_range_commit E s pg).1 = true ∧
      LoopPost s.pagesize s (checked_range_commit E s pg).2 := by
  unfold checked_range_commit
  by_cases h : s.first_not_commited < pg
  · rw [if_pos h]
    exact commit_loop_ok E hσ s.pagesize hpos _ _ _ s rfl rfl hal hlo hstop hovf
      (by omega)
  · rw [if_neg h]
    exact ⟨rfl, sameCore_refl s, fun x hx => hx, le_refl _, hal, hlo⟩

/-- Bound used throughout: on a `Ready` pool the whole slot capacity (hence
any quantity bounded by it) is below `end_gp` and so below `2 ^ 64`. -/
lemma Ready.occ_free_lt {slot : Nat} {s : mem_pool} (hR : Ready slot s) :
    s.occupied_slots + s.free_slots_left < U64 := by
  have h1 : s.occupied_slots + s.free_slots_left ≤
      (s.occupied_slots + s.free_slots_left) * slot :=
    Nat.le_mul_of_pos_right _ hR.slot_pos
  have h2 := hR.cap_le
  have h3 := hR.no_ovf
  omega

/-- On a `Ready` pool with a willing host and `n` within capacity,
`get_allocation` hands out the bump pointer `allocation_area +
occupied_slots * slot` and advances the counters by `n`. -/
lemma get_ok (E : Host) (slot n : Nat) (s : mem_pool)
    (hR : Ready slot s) (hσ : ∀ a, E.mprot a = true)
    (hn : n ≤ s.free_slots_left) :
    (get_allocation E slot n s).1 =
      some (s.allocation_area + s.occupied_slots * slot) ∧
      AllocPost slot s (get_allocation E slot n s).2 n := by
  have hof := hR.occ_free_lt
  have hcap := hR.cap_le
  have hovf := hR.no_ovf
  have harea := hR.area_eq
  have hpp := hR.ps_pos
  have hsp := hR.slot_pos
  have hb0 : 0 < s.begin_gp := Nat.pos_of_ne_zero hR.init_ne
  have hmul : (s.occupied_slots + n) * slot ≤
      (s.occupied_slots + s.free_slots_left) * slot :=
    Nat.mul_le_mul_right _ (by omega)
  have hXle : s.allocation_area + (s.occupied_slots + n) * slot ≤ s.end_gp := by
    omega
  have heb : wsub (s.allocation_area + (s.occupied_slots + n) * slot) 1 =
      s.allocation_area + (s.occupied_slots + n) * slot - 1 :=
    wsub_eq_sub (by omega) (by omega)
  obtain ⟨hc1, hcS, hcsub, hcf, hcal, hclo⟩ :=
    crc_ok E s (s.allocation_area + (s.occupied_slots + n) * slot - 1) hσ
      hR.ps_pos hR.fnc_al hR.fnc_lo (by omega) hR.no_ovf
  rcases hE : checked_range_commit E s
      (s.allocation_area + (s.occupied_slots + n) * slot - 1) with ⟨b, t⟩
  rw [hE] at hc1 hcS hcsub hcf hcal hclo
  have hbt : b = true := hc1
  subst hbt
  obtain ⟨e1, e2, e3, e4, e5, e6, e7⟩ := hcS
  have hred : get_allocation E slot n s =
      (some ((t.allocation_area + t.occupied_slots * slot) % U64),
       { t with occupied_slots := (t.occupied_slots + n) % U64,
                free_slots_left := t.free_slots_left - n }) := by
    unfold get_allocation get_alloc_core
    rw [if_neg hR.init_ne, if_neg (by omega : ¬s.free_slots_left < n), heb, hE]
  rw [hred]
  have hptr : (t.allocation_area + t.occupied_slots * slot) % U64 =
      s.allocation_area + s.occupied_slots * slot := by
    rw [e3, e5]
    have : s.occupied_slots * slot ≤ (s.occupied_slots + s.free_slots_left) * slot :=
      Nat.mul_le_mul_right _ (by omega)
    exact Nat.mod_eq_of_lt (by omega)
  have hocc : (t.occupied_slots + n) % U64 = s.occupied_slots + n := by
    rw [e5]
    exact Nat.mod_eq_of_lt (by omega)
  refine ⟨by rw [hptr], ?_, ?_, e1, e2, e3, e7, e4, ?_, ?_, ?_⟩
  · exact hocc
  · rw [e6]
  · exact hcf
  · exact hcsub
  · constructor
    · exact hsp
    · show t.pagesize > 0
      rw [e7]
      exact hpp
    · show t.begin_gp ≠ 0
      rw [e1]
      exact hR.init_ne
    · show t.allocation_area = t.begin_gp + t.pagesize
      rw [e3, e1, e7]
      exact harea
    · show t.allocation_area + ((t.occupied_slots + n) % U64 + (t.free_slots_left - n)) * slot ≤ t.end_gp
      rw [e3, e2, e5, e6, Nat.mod_eq_of_lt (by omega : s.occupied_slots + n < U64)]
      have hsum : s.occupied_slots + n + (s.free_slots_left - n) =
          s.occupied_slots + s.free_slots_left := by omega
      rw [hsum]
      exact hcap
    · show t.first_not_commited % t.pagesize = 0
      rw [e7]
      exact hcal
    · show t.begin_gp + t.pagesize ≤ t.first_not_commited
      rw [e1, e7]
      exact hclo
    · show t.end_gp + t.pagesize < U64
      rw [e2, e7]
      exact hovf

/-- On a `Ready` pool with a willing host, a growth request on the trailing
block (`ptr + old_nmbr` in slots equals the bump frontier) with the delta
within capacity succeeds and advances the counters by the delta. -/
lemma extend_ok (E : Host) (slot ptr old_n new_n : Nat) (s : mem_pool)
    (hR : Ready slot s) (hσ : ∀ a, E.mprot a = true)
    (hptr : ptr ≠ 0) (hon : old_n ≤ new_n) (hnW : new_n < U64)
    (hfree : new_n - old_n ≤ s.free_slots_left)
    (heq : ptr + old_n * slot = s.allocation_area + s.occupied_slots * slot) :
    (extend_allocation E slot ptr old_n new_n s).1 = true ∧
      AllocPost slot s (extend_allocation E slot ptr old_n new_n s).2 (new_n - old_n) := by
  have hof := hR.occ_free_lt
  have hcap := hR.cap_le
  have hovf := hR.no_ovf
  have harea := hR.area_eq
  have hpp := hR.ps_pos
  have hsp := hR.slot_pos
  have hb0 : 0 < s.begin_gp := Nat.pos_of_ne_zero hR.init_ne
  have hd : wsub new_n old_n = new_n - old_n := wsub_eq_sub hon hnW
  have hmul : (s.occupied_slots + (new_n - old_n)) * slot ≤
      (s.occupied_slots + s.free_slots_left) * slot :=
    Nat.mul_le_mul_right _ (by omega)
  have heb : wsub (s.allocation_area + (s.occupied_slots + wsub new_n old_n) * slot) 1 =
      s.allocation_area + (s.occupied_slots + (new_n - old_n)) * slot - 1 := by
    rw [hd]
    exact wsub_eq_sub (by omega) (by omega)
  obtain ⟨hc1, hcS, hcsub, hcf, hcal, hclo⟩ :=
    crc_ok E s (s.allocation_area + (s.occupied_slots + (new_n - old_n)) * slot - 1) hσ
      hR.ps_pos hR.fnc_al hR.fnc_lo (by omega) hR.no_ovf
  rcases hE : checked_range_commit E s
      (s.allocation_area + (s.occupied_slots + (new_n - old_n)) * slot - 1) with ⟨b, t⟩
  rw [hE] at hc1 hcS hcsub hcf hcal hclo
  have hbt : b = true := hc1
  subst hbt
  obtain ⟨e1, e2, e3, e4, e5, e6, e7⟩ := hcS
  have hred : extend_allocation E slot ptr old_n new_n s =
      (true, { t with occupied_slots := (t.occupied_slots + wsub new_n old_n) % U64,
                      free_slots_left := t.free_slots_left - wsub new_n old_n }) := by
    unfold extend_allocation
    rw [if_neg hptr, if_neg hR.init_ne, heb, hE,
      if_neg (by rw [hd]; omega : ¬s.free_slots_left < wsub new_n old_n),
      if_neg (by rw [heq]; exact fun hc => hc rfl :
        ¬(ptr + old_n * slot) % U64 ≠ (s.allocation_area + s.occupied_slots * slot) % U64)]
  rw [hred]
  have hocc : (t.occupied_slots + wsub new_n old_n) % U64 =
      s.occupied_slots + (new_n - old_n) := by
    rw [e5, hd]
    exact Nat.mod_eq_of_lt (by omega)
  refine ⟨rfl, ?_, ?_, e1, e2, e3, e7, e4, ?_, ?_, ?_⟩
  · exact hocc
  · rw [e6, hd]
  · exact hcf
  · exact hcsub
  · constructor
    · exact hsp
    · show t.pagesize > 0
      rw [e7]
      exact hpp
    · show t.begin_gp ≠ 0
      rw [e1]
      exact hR.init_ne
    · show t.allocation_area = t.begin_gp + t.pagesize
      rw [e3, e1, e7]
      exact harea
    · show t.allocation_area +
          ((t.occupied_slots + wsub new_n old_n) % U64 +
            (t.free_slots_left - wsub new_n old_n)) * slot ≤ t.end_gp
      rw [e3, e2, hocc, e6, hd]
      have hsum : s.occupied_slots + (new_n - old_n) +
          (s.free_slots_left - (new_n - old_n)) =
          s.occupied_slots + s.free_slots_left := by omega
      rw [hsum]
      exact hcap
    · show t.first_not_commited % t.pagesize = 0
      rw [e7]
      exact hcal
    · show t.begin_gp + t.pagesize ≤ t.first_not_commited
      rw [e1, e7]
      exact hclo
    · show t.end_gp + t.pagesize < U64
      rw [e2, e7]
      exact hovf

/-- A growth request whose `ptr + old_nmbr` (in slots, as 64-bit values)
differs from the bump frontier is rejected, whatever else holds. -/
lemma extend_ne_fail (E : Host) (slot ptr old_n new_n : Nat) (s : mem_pool)
    (hb1 : ptr + old_n * slot < U64)
    (hb2 : s.allocation_area + s.occupied_slots * slot < U64)
    (hne : ptr + old_n * slot ≠ s.allocation_area + s.occupied_slots * slot) :
    (extend_allocation E slot ptr old_n new_n s).1 = false := by
  unfold extend_allocation
  by_cases h1 : ptr = 0
  · rw [if_pos h1]
  · rw [if_neg h1]
    by_cases h2 : s.begin_gp = 0
    · rw [if_pos h2]
    · rw [if_neg h2]
      by_cases h3 : s.free_slots_left < wsub new_n old_n
      · rw [if_pos h3]
      · rw [if_neg h3]
        rw [if_pos ?_]
        rw [Nat.mod_eq_of_lt hb1, Nat.mod_eq_of_lt hb2]
        exact hne

/-- The four guard failures of `extend_allocation` all return `false` with the
state untouched; in particular a request is rejected whenever the capacity
guard `free_slots_left < allocate_nmbr` fires. -/
lemma extend_guard_fail (E : Host) (slot ptr old_n new_n : Nat) (s : mem_pool)
    (h : ptr = 0 ∨ s.begin_gp = 0 ∨ s.free_slots_left < wsub new_n old_n ∨
      (ptr + old_n * slot) % U64 ≠ (s.allocation_area + s.occupied_slots * slot) % U64) :
    extend_allocation E slot ptr old_n new_n s = (false, s) := by
  unfold extend_allocation
  by_cases h1 : ptr = 0
  · rw [if_pos h1]
  · rw [if_neg h1]
    by_cases h2 : s.begin_gp = 0
    · rw [if_pos h2]
    · rw [if_neg h2]
      by_cases h3 : s.free_slots_left < wsub new_n old_n
      · rw [if_pos h3]
      · rw [if_neg h3]
        have h4 : (ptr + old_n * slot) % U64 ≠
            (s.allocation_area + s.occupied_slots * slot) % U64 := by tauto
        rw [if_pos h4]

/-- On an initialized pool, an allocation request past the free-slot count is
rejected and the state is untouched. -/
lemma get_exhausted (E : Host) (slot n : Nat) (s : mem_pool)
    (hinit : s.begin_gp ≠ 0) (hlt : s.free_slots_left < n) :
    get_allocation E slot n s = (none, s) := by
  unfold get_allocation get_alloc_core
  rw [if_neg hinit, if_pos hlt]

/-- On an initialized pool, `get_allocation` changes nothing but (possibly)
the commit frontier and the protection map whenever it fails. -/
lemma get_fail_core (E : Host) (slot n : Nat) (s : mem_pool)
    (hinit : s.begin_gp ≠ 0) (h : (get_allocation E slot n s).1 = none) :
    (get_allocation E slot n s).2.occupied_slots = s.occupied_slots ∧
      (get_allocation E slot n s).2.free_slots_left = s.free_slots_left := by
  by_cases h1 : s.free_slots_left < n
  · rw [get_exhausted E slot n s hinit h1]
    exact ⟨rfl, rfl⟩
  · obtain ⟨hS, -⟩ := crc_core E s (wsub (s.allocation_area + (s.occupied_slots + n) * slot) 1)
    rcases hE : checked_range_commit E s
        (wsub (s.allocation_area + (s.occupied_slots + n) * slot) 1) with ⟨b, t⟩
    rw [hE] at hS
    obtain ⟨-, -, -, -, e5, e6, -⟩ := hS
    cases b
    · have hred : get_allocation E slot n s = (none, t) := by
        unfold get_allocation get_alloc_core
        rw [if_neg hinit, if_neg h1, hE]
      rw [hred]
      exact ⟨e5, e6⟩
    · have hred : get_allocation E slot n s =
          (some ((t.allocation_area + t.occupied_slots * slot) % U64),
           { t with occupied_slots := (t.occupied_slots + n) % U64,
                    free_slots_left := t.free_slots_left - n }) := by
        unfold get_allocation get_alloc_core
        rw [if_neg hinit, if_neg h1, hE]
      rw [hred] at h
      simp at h

/-- Monotonic bump addresses: with a willing host and total demand within
capacity, the `k`-th allocation of a sequence lands at `allocation_area`
plus `slot` bytes for every previously occupied slot. -/
lemma alloc_seq_addr (E : Host) (slot : Nat) (hσ : ∀ a, E.mprot a = true) :
    ∀ (ns : List Nat) (s : mem_pool), Ready slot s →
      ns.sum ≤ s.free_slots_left → ∀ k, k < ns.length →
      (alloc_seq E slot ns s).1[k]? =
        some (some (s.allocation_area + (s.occupied_slots + (ns.take k).sum) * slot)) := by
  intro ns
  induction ns with
  | nil =>
    intro s _ _ k hk
    exact absurd hk (by simp)
  | cons n tl ih =>
    intro s hR hsum k hk
    rw [List.sum_cons] at hsum
    have hn : n ≤ s.free_slots_left := by omega
    obtain ⟨hp, hocc, hfree, hbeg, hend, harea, hps, hpg, hfnc, hsub, hRt⟩ :=
      get_ok E slot n s hR hσ hn
    have hred : (alloc_seq E slot (n :: tl) s).1 =
        (get_allocation E slot n s).1 ::
          (alloc_seq E slot tl (get_allocation E slot n s).2).1 := rfl
    match k with
    | 0 =>
      rw [hred, List.getElem?_cons_zero, hp]
      simp
    | k + 1 =>
      have hsum' : tl.sum ≤ (get_allocation E slot n s).2.free_slots_left := by
        rw [hfree]
        omega
      have hih := ih (get_allocation E slot n s).2 hRt hsum' k (by simpa using hk)
      rw [hred, List.getElem?_cons_succ, hih, harea, hocc]
      have htake : ((n :: tl).take (k + 1)).sum = n + (tl.take k).sum := by
        simp
      rw [htake]
      have : s.occupied_slots + n + (tl.take k).sum =
          s.occupied_slots + (n + (tl.take k).sum) := by omega
      rw [this]

lemma hσ0 : ∀ a, E0.mprot a = true := fun _ => rfl

lemma ready_s4 : Ready 8 s4 :=
  ⟨by decide, by decide, by decide, by decide, by decide, by decide, by decide,
    by decide⟩

/-- The `owns` comparison `allocation_area < val ∧ val < begin_gp` is
unsatisfiable whenever the leading guard page lies at or below the usable
area, so `owns` is constantly false on every such pool. -/
lemma owns_const_false (s : mem_pool) (h : s.begin_gp ≤ s.allocation_area)
    (v : Nat) : owns s v = false := by
  unfold owns
  simp only [decide_eq_false_iff_not, not_and]
  intro h1 h2
  omega

/-! ### Claim C2 (code bug in `owns`) -/

/-- C2: the claim says a successful `allocate(10)` on the freshly initialized
4-page arena returns `p` with `owns(p)` and `owns(p + 10*slot - 1)` true and
`owns` false on both guard pages.  The code disagrees: `mem_pool::owns`
requires `val < begin_gp`, but `begin_gp` is the *mapping start* (the leading
guard page), which lies a full page below `allocation_area`, so `owns` is
constantly false — in particular on the pointer just handed out and on its
last byte — while both guard-page conjuncts hold vacuously.  The intended
upper bound is plainly the trailing guard (`end_gp`), as the function's own
documentation ("true iff the pointer belongs to the mapping of this class")
and spec §8 *Containment* demand. -/
theorem owns_code_bug :
    (get_allocation E0 8 10 s4).1 = some 8192 ∧
    owns (get_allocation E0 8 10 s4).2 8192 = false ∧
    owns (get_allocation E0 8 10 s4).2 (8192 + 10 * 8 - 1) = false ∧
    owns s4 s4.begin_gp = false ∧
    owns s4 s4.end_gp = false ∧
    (∀ v : Nat, owns s4 v = false) := by
  refine ⟨by decide, by decide, by decide, by decide, by decide, ?_⟩
  exact owns_const_false s4 (by decide)

/-! ### Claim C4 (allocation failure leaves the counters alone) -/

/-- C4 as amended: on an *initialized* arena, `get_allocation` rejects any
request beyond `free_slots_left` without touching the state, and every failed
call leaves `occupied_slots` and `free_slots_left` unchanged (a failed commit
may still have advanced the frontier, but never the counters). -/
theorem allocate_capacity_fail_spec (E : Host) (slot n : Nat) (s : mem_pool)
    (hinit : s.begin_gp ≠ 0) :
    (s.free_slots_left < n → get_allocation E slot n s = (none, s)) ∧
    ((get_allocation E slot n s).1 = none →
      (get_allocation E slot n s).2.occupied_slots = s.occupied_slots ∧
      (get_allocation E slot n s).2.free_slots_left = s.free_slots_left) :=
  ⟨fun h => get_exhausted E slot n s hinit h,
   fun h => get_fail_core E slot n s hinit h⟩

/-- C4, counterexample to the claim as stated over *every* arena state: on the
uninitialized pool the lazy-initialization path makes `allocate(5)` succeed
even though 5 exceeds the pre-call `free_slots` of 0, and the failed-call
clause is moot only because the call did not fail — the pre-call and
post-call `free_slots` differ. -/
theorem allocate_lazy_init_counterexample :
    pool0.free_slots_left = 0 ∧
    (get_allocation E0 8 5 pool0).1 = some 8192 ∧
    (get_allocation E0 8 5 pool0).2.free_slots_left = 4091 := by
  decide

theorem allocate_capacity_fail_witness :
    s4.begin_gp ≠ 0 ∧
    ((s4.free_slots_left < 2000 → get_allocation E0 8 2000 s4 = (none, s4)) ∧
      ((get_allocation E0 8 2000 s4).1 = none →
        (get_allocation E0 8 2000 s4).2.occupied_slots = s4.occupied_slots ∧
        (get_allocation E0 8 2000 s4).2.free_slots_left = s4.free_slots_left)) :=
  ⟨by decide, allocate_capacity_fail_spec E0 8 2000 s4 (by decide)⟩

/-! ### Claim C6 (`free_slots` derived at initialization) -/

/-- Body lemma for C6: a successful `init_pool_aux` on a pool `u` derives
`free_slots_left` from `(pages - 2) * page_size / slot_size` with `pages` the
request or the built-in default of ten. -/
lemma init_pool_aux_free (E : Host) (slot pgs0 : Nat) (u : mem_pool)
    (h2 : 2 ≤ (if pgs0 = 0 then allocate_pgs else pgs0))
    (hbound : (if pgs0 = 0 then allocate_pgs else pgs0) * u.pagesize < U64) :
    (init_pool_aux E slot pgs0 u).1 = true →
    (init_pool_aux E slot pgs0 u).2.free_slots_left =
      ((if pgs0 = 0 then allocate_pgs else pgs0) - 2) * u.pagesize / slot := by
  unfold init_pool_aux
  by_cases hbg : u.begin_gp ≠ 0
  · rw [if_pos hbg]
    intro h
    exact absurd h (by simp)
  · rw [if_neg hbg]
    split
    · intro h
      exact absurd h (by simp)
    · rename_i b hmb
      split
      · rename_i t heq
        intro _
        obtain ⟨hS, -⟩ := commit_page_core E
          (init_fields slot (if pgs0 = 0 then allocate_pgs else pgs0) u.pagesize b u)
          ((b + u.pagesize) % U64)
        rw [heq] at hS
        obtain ⟨-, -, -, -, -, e6, -⟩ := hS
        show t.free_slots_left = _
        rw [e6]
        show wsub ((if pgs0 = 0 then allocate_pgs else pgs0) * u.pagesize)
            (2 * u.pagesize) / slot = _
        rw [wsub_eq_sub (Nat.mul_le_mul_right _ h2) hbound, ← Nat.sub_mul]
      · intro h
        exact absurd h (by simp)

/-- C6: every successful `init_pool` sets `free_slots_left` to
`(pages - 2) * page_size / slot_size`, where `pages` is the request or the
built-in default of ten when the request is zero, and `page_size` is the
host's page size (stated for a pool that has not yet cached one). -/
theorem init_free_slots_formula (E : Host) (slot pgs0 : Nat) (s : mem_pool)
    (hps0 : s.pagesize = 0)
    (h2 : 2 ≤ (if pgs0 = 0 then allocate_pgs else pgs0))
    (hbound : (if pgs0 = 0 then allocate_pgs else pgs0) * E.sys_pagesize < U64) :
    (init_pool E slot pgs0 s).1 = true →
    (init_pool E slot pgs0 s).2.free_slots_left =
      ((if pgs0 = 0 then allocate_pgs else pgs0) - 2) * E.sys_pagesize / slot := by
  unfold init_pool
  rw [if_pos hps0]
  exact init_pool_aux_free E slot pgs0 { s with pagesize := E.sys_pagesize } h2 hbound

theorem init_free_slots_witness :
    pool0.pagesize = 0 ∧
    2 ≤ (if (4 : Nat) = 0 then allocate_pgs else 4) ∧
    (if (4 : Nat) = 0 then allocate_pgs else 4) * E0.sys_pagesize < U64 ∧
    (init_pool E0 8 4 pool0).1 = true ∧
    (init_pool E0 8 4 pool0).2.free_slots_left =
      ((if (4 : Nat) = 0 then allocate_pgs else 4) - 2) * E0.sys_pagesize / 8 ∧
    (init_pool E0 8 4 pool0).2.free_slots_left = 1024 :=
  ⟨by decide, by decide, by decide, by decide,
    init_free_slots_formula E0 8 4 pool0 (by decide) (by decide) (by decide)
      (by decide), by decide⟩

/-! ### Claim C8 (`commit_page` rejections) -/

/-- C8: `commit_page` returns failure and leaves the state — frontier and
protection map included — untouched whenever the page address is unaligned
(the host's `mprotect` refuses it) or lies outside
`[begin_gp + pagesize, end_gp]`, i.e. below one page past the mapping start
or above the trailing guard page address. -/
theorem commit_page_reject_spec (E : Host) (s : mem_pool) (pg : Nat)
    (hovf : s.begin_gp + s.pagesize < U64)
    (h : pg % s.pagesize ≠ 0 ∨ pg < s.begin_gp + s.pagesize ∨ s.end_gp < pg) :
    commit_page E s pg = (false, s) := by
  unfold commit_page
  rw [Nat.mod_eq_of_lt hovf]
  by_cases h1 : pg < s.begin_gp + s.pagesize ∨ s.end_gp < pg
  · rw [if_pos h1]
  · rw [if_neg h1]
    have hal : pg % s.pagesize ≠ 0 := by tauto
    rw [if_neg (by simp [mprotect_ok, hal])]

theorem commit_page_reject_witness :
    s4.begin_gp + s4.pagesize < U64 ∧
    ((8193 : Nat) % s4.pagesize ≠ 0 ∨ 8193 < s4.begin_gp + s4.pagesize ∨
      s4.end_gp < 8193) ∧
    commit_page E0 s4 8193 = (false, s4) ∧
    s4.begin_gp + s4.pagesize < U64 ∧
    ((4096 : Nat) % s4.pagesize ≠ 0 ∨ 4096 < s4.begin_gp + s4.pagesize ∨
      s4.end_gp < 4096) ∧
    commit_page E0 s4 4096 = (false, s4) :=
  ⟨by decide, by decide, commit_page_reject_spec E0 s4 8193 (by decide) (by decide),
   by decide, by decide, commit_page_reject_spec E0 s4 4096 (by decide) (by decide)⟩

/-! ### Claim C9 (shrink requests wrap the delta and are rejected) -/

/-- C9: with `new_nmbr < old_nmbr` the requested delta
`new_nmbr - old_nmbr` wraps in `std::size_t` to `2^64 - (old_nmbr - new_nmbr)`;
for realizable operand and capacity magnitudes (here bounded by `2^48`, far
beyond any actual arena) the capacity guard therefore fails and the call
returns `false` with the state — counters and commit frontier included —
bit-for-bit unchanged, so an allocation is never shrunk in place. -/
theorem extend_shrink_rejected (E : Host) (slot ptr old_n new_n : Nat)
    (s : mem_pool) (hptr : ptr ≠ 0) (hlt : new_n < old_n)
    (hold : old_n ≤ 2 ^ 48) (hfree : s.free_slots_left ≤ 2 ^ 48) :
    wsub new_n old_n = U64 - (old_n - new_n) ∧
    s.free_slots_left < wsub new_n old_n ∧
    extend_allocation E slot ptr old_n new_n s = (false, s) := by
  have h48 : (2 : Nat) ^ 48 = 281474976710656 := by norm_num
  have hoU : old_n < U64 := by
    rw [U64_val]
    omega
  have hw : wsub new_n old_n = U64 - (old_n - new_n) := wsub_wrap hlt hoU
  have hg : s.free_slots_left < wsub new_n old_n := by
    rw [hw, U64_val]
    omega
  exact ⟨hw, hg,
    extend_guard_fail E slot ptr old_n new_n s (Or.inr (Or.inr (Or.inl hg)))⟩

theorem extend_shrink_witness :
    (8192 : Nat) ≠ 0 ∧ (1 : Nat) < 2 ∧ (2 : Nat) ≤ 2 ^ 48 ∧
    s4.free_slots_left ≤ 2 ^ 48 ∧
    wsub 1 2 = U64 - 1 ∧
    s4.free_slots_left < wsub 1 2 ∧
    extend_allocation E0 8 8192 2 1 s4 = (false, s4) :=
  ⟨by decide, by decide, by decide, by decide,
    (extend_shrink_rejected E0 8 8192 2 1 s4 (by decide) (by decide) (by decide)
      (by decide)).1,
    (extend_shrink_rejected E0 8 8192 2 1 s4 (by decide) (by decide) (by decide)
      (by decide)).2.1,
    (extend_shrink_rejected E0 8 8192 2 1 s4 (by decide) (by decide) (by decide)
      (by decide)).2.2⟩

/-! ### Claim C10 (`delete_allocation` is unvalidated modular accounting) -/

/-- C10: on an initialized pool with a non-null pointer,
`delete_allocation` returns `true` for every count — no validation against the
current occupancy — and updates both counters in arithmetic modulo `2^64`:
the new `occupied_slots` is `occupied_slots - count` and the new
`free_slots_left` is `free_slots_left + count` in `ZMod (2^64)` (each stored
value staying below `2^64`), so the sum `occupied_slots + free_slots_left` is
preserved modulo `2^64`. -/
theorem free_unvalidated_accounting (ptr nmbr : Nat) (s : mem_pool)
    (hinit : s.begin_gp ≠ 0) (hptr : ptr ≠ 0) :
    (delete_allocation ptr nmbr s).1 = true ∧
    (delete_allocation ptr nmbr s).2.occupied_slots < U64 ∧
    (delete_allocation ptr nmbr s).2.free_slots_left < U64 ∧
    ((delete_allocation ptr nmbr s).2.occupied_slots : ZMod U64) =
      (s.occupied_slots : ZMod U64) - (nmbr : ZMod U64) ∧
    ((delete_allocation ptr nmbr s).2.free_slots_left : ZMod U64) =
      (s.free_slots_left : ZMod U64) + (nmbr : ZMod U64) ∧
    (((delete_allocation ptr nmbr s).2.occupied_slots +
        (delete_allocation ptr nmbr s).2.free_slots_left : Nat) : ZMod U64) =
      ((s.occupied_slots + s.free_slots_left : Nat) : ZMod U64) := by
  have hred : delete_allocation ptr nmbr s =
      (true, { s with occupied_slots := wsub s.occupied_slots nmbr,
                      free_slots_left := (s.free_slots_left + nmbr) % U64 }) := by
    unfold delete_allocation
    rw [if_neg hptr, if_neg hinit]
  rw [hred]
  refine ⟨rfl, wsub_lt _ _, Nat.mod_lt _ U64_pos, wsub_zmod _ _, ?_, ?_⟩
  · show (((s.free_slots_left + nmbr) % U64 : Nat) : ZMod U64) = _
    rw [ZMod.natCast_mod, Nat.cast_add]
  · show ((wsub s.occupied_slots nmbr + (s.free_slots_left + nmbr) % U64 : Nat) :
        ZMod U64) = _
    rw [Nat.cast_add, Nat.cast_add, wsub_zmod, ZMod.natCast_mod, Nat.cast_add]
    ring

theorem free_unvalidated_witness :
    s4.begin_gp ≠ 0 ∧ (8192 : Nat) ≠ 0 ∧ s4.occupied_slots < 2000 ∧
    ((delete_allocation 8192 2000 s4).1 = true ∧
      (delete_allocation 8192 2000 s4).2.occupied_slots < U64 ∧
      (delete_allocation 8192 2000 s4).2.free_slots_left < U64 ∧
      ((delete_allocation 8192 2000 s4).2.occupied_slots : ZMod U64) =
        (s4.occupied_slots : ZMod U64) - (2000 : ZMod U64) ∧
      ((delete_allocation 8192 2000 s4).2.free_slots_left : ZMod U64) =
        (s4.free_slots_left : ZMod U64) + (2000 : ZMod U64) ∧
      (((delete_allocation 8192 2000 s4).2.occupied_slots +
          (delete_allocation 8192 2000 s4).2.free_slots_left : Nat) : ZMod U64) =
        ((s4.occupied_slots + s4.free_slots_left : Nat) : ZMod U64)) := by
  refine ⟨by decide, by decide, by decide, ?_⟩
  have h := free_unvalidated_accounting 8192 2000 s4 (by decide) (by decide)
  have hc : ((2000 : Nat) : ZMod U64) = (2000 : ZMod U64) := by norm_cast
  rw [hc] at h
  exact h

/-! ### Claim C5 (facade allocation policy) -/

/-- C5 as amended: with a nonzero configured ceiling, `page_allocator::allocate`
fails without touching the pool exactly when the request exceeds the
address-space-derived theoretical maximum `PTRDIFF_MAX / sizeof(T)` or when
the *current occupancy* `occupied_slots + 1` exceeds the ceiling; the ceiling
is never compared against the requested count, so any request that passes
those two tests — however large — is delegated to the arena. -/
theorem pa_allocate_policy (E : Host) (tpsize slot objs n : Nat) (s : mem_pool)
    (hobj : objs ≠ 0) (hocc : s.occupied_slots + 1 < U64) :
    (M_max_size tpsize < n → pa_allocate E tpsize slot objs n s = (none, s)) ∧
    (objs < s.occupied_slots + 1 → pa_allocate E tpsize slot objs n s = (none, s)) ∧
    (n ≤ M_max_size tpsize → s.occupied_slots + 1 ≤ objs →
      pa_allocate E tpsize slot objs n s = get_allocation E slot n s) := by
  have hmax : pa_max_size objs tpsize = objs := by
    unfold pa_max_size
    rw [if_pos hobj]
  have hmod : (s.occupied_slots + 1) % U64 = s.occupied_slots + 1 :=
    Nat.mod_eq_of_lt hocc
  refine ⟨?_, ?_, ?_⟩
  · intro h
    unfold pa_allocate
    rw [if_pos h]
  · intro h
    unfold pa_allocate
    by_cases h1 : M_max_size tpsize < n
    · rw [if_pos h1]
    · rw [if_neg h1, hmax, hmod, if_pos h]
  · intro h1 h2
    unfold pa_allocate
    rw [if_neg (by omega), hmax, hmod, if_neg (by omega)]

/-- C5, counterexample to the claim as stated: with the default configured
ceiling of 10 objects, a request for 50 slots — five times the ceiling — is
*not* rejected: the second facade guard compares the ceiling against
`occupied_slots + 1`, not against the request, so the call is delegated to
the arena and succeeds. -/
theorem pa_allocate_ceiling_counterexample :
    (10 : Nat) ≠ 0 ∧ pa_max_size 10 8 = 10 ∧ (10 : Nat) < 50 ∧
    (pa_allocate E0 8 8 10 50 pool0).1 = some 8192 := by
  decide

theorem pa_allocate_policy_witness :
    (10 : Nat) ≠ 0 ∧ s4.occupied_slots + 1 < U64 ∧
    ((M_max_size 8 < 50 → pa_allocate E0 8 8 10 50 s4 = (none, s4)) ∧
      (10 < s4.occupied_slots + 1 → pa_allocate E0 8 8 10 50 s4 = (none, s4)) ∧
      (50 ≤ M_max_size 8 → s4.occupied_slots + 1 ≤ 10 →
        pa_allocate E0 8 8 10 50 s4 = get_allocation E0 8 50 s4)) :=
  ⟨by decide, by decide, pa_allocate_policy E0 8 8 10 50 s4 (by decide) (by decide)⟩

/-! ### Claim C7 (commit frontier monotonicity) -/

/-- On an initialized pool, `get_allocation` never moves the commit frontier
backward and never decommits a page. -/
lemma get_frontier_mono (E : Host) (slot n : Nat) (s : mem_pool)
    (hinit : s.begin_gp ≠ 0) (hovf : s.end_gp + s.pagesize < U64) :
    s.first_not_commited ≤ (get_allocation E slot n s).2.first_not_commited ∧
      s.committed ⊆ (get_allocation E slot n s).2.committed := by
  by_cases h1 : s.free_slots_left < n
  · rw [get_exhausted E slot n s hinit h1]
    exact ⟨le_refl _, fun x hx => hx⟩
  · have hm := crc_mono E s
      (wsub (s.allocation_area + (s.occupied_slots + n) * slot) 1) hovf
    obtain ⟨-, hsub⟩ := crc_core E s
      (wsub (s.allocation_area + (s.occupied_slots + n) * slot) 1)
    rcases hE : checked_range_commit E s
        (wsub (s.allocation_area + (s.occupied_slots + n) * slot) 1) with ⟨b, t⟩
    rw [hE] at hm hsub
    cases b
    · have hred : get_allocation E slot n s = (none, t) := by
        unfold get_allocation get_alloc_core
        rw [if_neg hinit, if_neg h1, hE]
      rw [hred]
      exact ⟨hm, hsub⟩
    · have hred : get_allocation E slot n s =
          (some ((t.allocation_area + t.occupied_slots * slot) % U64),
           { t with occupied_slots := (t.occupied_slots + n) % U64,
                    free_slots_left := t.free_slots_left - n }) := by
        unfold get_allocation get_alloc_core
        rw [if_neg hinit, if_neg h1, hE]
      rw [hred]
      exact ⟨hm, hsub⟩

/-- `extend_allocation` never moves the commit frontier backward and never
decommits a page. -/
lemma extend_frontier_mono (E : Host) (slot p a b : Nat) (s : mem_pool)
    (hovf : s.end_gp + s.pagesize < U64) :
    s.first_not_commited ≤ (extend_allocation E slot p a b s).2.first_not_commited ∧
      s.committed ⊆ (extend_allocation E slot p a b s).2.committed := by
  by_cases hg : p = 0 ∨ s.begin_gp = 0 ∨ s.free_slots_left < wsub b a ∨
      (p + a * slot) % U64 ≠ (s.allocation_area + s.occupied_slots * slot) % U64
  · rw [extend_guard_fail E slot p a b s hg]
    exact ⟨le_refl _, fun x hx => hx⟩
  · push_neg at hg
    obtain ⟨h1, h2, h3, h4⟩ := hg
    have hm := crc_mono E s
      (wsub (s.allocation_area + (s.occupied_slots + wsub b a) * slot) 1) hovf
    obtain ⟨-, hsub⟩ := crc_core E s
      (wsub (s.allocation_area + (s.occupied_slots + wsub b a) * slot) 1)
    rcases hE : checked_range_commit E s
        (wsub (s.allocation_area + (s.occupied_slots + wsub b a) * slot) 1)
        with ⟨cb, t⟩
    rw [hE] at hm hsub
    cases cb
    · have hred : extend_allocation E slot p a b s = (false, t) := by
        unfold extend_allocation
        rw [if_neg h1, if_neg h2, if_neg (not_lt.mpr h3), if_neg (by omega), hE]
      rw [hred]
      exact ⟨hm, hsub⟩
    · have hred : extend_allocation E slot p a b s =
          (true, { t with occupied_slots := (t.occupied_slots + wsub b a) % U64,
                          free_slots_left := t.free_slots_left - wsub b a }) := by
        unfold extend_allocation
        rw [if_neg h1, if_neg h2, if_neg (not_lt.mpr h3), if_neg (by omega), hE]
      rw [hred]
      exact ⟨hm, hsub⟩

/-- `delete_allocation` never touches the commit frontier or the protection
map. -/
lemma delete_frontier_mono (p n : Nat) (s : mem_pool) :
    (delete_allocation p n s).2.first_not_commited = s.first_not_commited ∧
      (delete_allocation p n s).2.committed = s.committed := by
  unfold delete_allocation
  by_cases h1 : p = 0
  · rw [if_pos h1]
    exact ⟨rfl, rfl⟩
  · rw [if_neg h1]
    by_cases h2 : s.begin_gp = 0
    · rw [if_pos h2]
      exact ⟨rfl, rfl⟩
    · rw [if_neg h2]
      exact ⟨rfl, rfl⟩

/-- C7 as amended: on an initialized arena the frontier never moves backward
under the range commit, allocation, extension or free, a range commit ending
inside the already-committed region succeeds and changes nothing, and no
operation short of full teardown decommits a page.  (The original claim's
"never moves backward under any arena operation" fails for one operation:
a direct `commit_page` call on a page below the current frontier — which no
repository code path performs — resets the frontier to one page past that
page; see the counterexample.) -/
theorem frontier_monotone_spec (E : Host) (slot : Nat) (s : mem_pool)
    (hinit : s.begin_gp ≠ 0) (hovf : s.end_gp + s.pagesize < U64) :
    FrontierConcl E slot s := by
  refine ⟨?_, ?_, ?_, ?_, ?_, ?_⟩
  · intro pg h
    exact crc_within E s pg h
  · intro pg
    exact ⟨crc_mono E s pg hovf, (crc_core E s pg).2⟩
  · intro n
    exact get_frontier_mono E slot n s hinit hovf
  · intro p a b
    exact extend_frontier_mono E slot p a b s hovf
  · intro p n
    obtain ⟨h1, h2⟩ := delete_frontier_mono p n s
    exact ⟨le_of_eq h1.symm, by rw [h2]; exact fun x hx => hx⟩
  · intro pg
    exact (commit_page_core E s pg).2

/-- C7, counterexample to the claim as stated: on the 5-page arena with the
frontier legitimately advanced to 16384 by a range commit, the arena
operation `commit_page` applied directly to the (already committed) first
usable page 8192 succeeds and *moves the frontier backward* to 12288. -/
theorem frontier_regress_counterexample :
    (init_pool E0 8 5 pool0).1 = true ∧
    s5c.first_not_commited = 16384 ∧
    (commit_page E0 s5c 8192).1 = true ∧
    (commit_page E0 s5c 8192).2.first_not_commited = 12288 ∧
    (commit_page E0 s5c 8192).2.first_not_commited < s5c.first_not_commited := by
  decide

theorem frontier_monotone_witness :
    s4.begin_gp ≠ 0 ∧ s4.end_gp + s4.pagesize < U64 ∧ FrontierConcl E0 8 s4 :=
  ⟨by decide, by decide, frontier_monotone_spec E0 8 s4 (by decide) (by decide)⟩

/-- C3: on a freshly initialized pool (no occupied slot yet) allocation is
monotonic bump allocation: consecutive successful allocations are adjacent,
and allocation `k` of a sequence lands at `usable_start` plus `slot_size`
times the total of all previously allocated slot counts. -/
theorem bump_monotonic_spec (E : Host) (slot : Nat) (s : mem_pool)
    (hR : Ready slot s) (hσ : ∀ a, E.mprot a = true)
    (h0 : s.occupied_slots = 0) : BumpConcl E slot s := by
  constructor
  · intro a b p1 p2 hp1 hp2
    have ha : a ≤ s.free_slots_left := by
      by_contra hna
      push_neg at hna
      rw [get_exhausted E slot a s hR.init_ne hna] at hp1
      simp at hp1
    obtain ⟨hp, hocc, hfree, hbeg, hend, harea, hps, hpg, hfnc, hsub, hR1⟩ :=
      get_ok E slot a s hR hσ ha
    rw [hp] at hp1
    have hp1v : p1 = s.allocation_area + s.occupied_slots * slot := by
      injection hp1 with h
      exact h.symm
    have hb : b ≤ (get_allocation E slot a s).2.free_slots_left := by
      by_contra hnb
      push_neg at hnb
      rw [get_exhausted E slot b _ hR1.init_ne hnb] at hp2
      simp at hp2
    obtain ⟨hp2r, hocc2, hfree2, hbeg2, hend2, harea2, hps2, hpg2, hfnc2, hsub2, hR2⟩ :=
      get_ok E slot b (get_allocation E slot a s).2 hR1 hσ hb
    rw [hp2r] at hp2
    have hp2v : p2 = (get_allocation E slot a s).2.allocation_area +
        (get_allocation E slot a s).2.occupied_slots * slot := by
      injection hp2 with h
      exact h.symm
    rw [harea, hocc] at hp2v
    rw [hp1v, hp2v, Nat.add_mul]
    omega
  · intro ns hsum k hk
    rw [alloc_seq_addr E slot hσ ns s hR hsum k hk, h0, Nat.zero_add]

theorem bump_monotonic_witness :
    Ready 8 s4 ∧ (∀ a, E0.mprot a = true) ∧ s4.occupied_slots = 0 ∧
      BumpConcl E0 8 s4 :=
  ⟨ready_s4, hσ0, by decide, bump_monotonic_spec E0 8 s4 ready_s4 hσ0 (by decide)⟩

/-- C1: extension succeeds exactly on the trailing block, adjusts the two
counters by the delta, leaves the pointer valid so that the next allocation
starts right after the extended block, and is permanently blocked by any
intervening allocation. -/
theorem extend_trailing_spec (E : Host) (slot : Nat) (s : mem_pool)
    (hR : Ready slot s) (hσ : ∀ a, E.mprot a = true) : ExtendSpecConcl E slot s := by
  have hof := hR.occ_free_lt
  have hcap := hR.cap_le
  have hsp := hR.slot_pos
  have hpp := hR.ps_pos
  have hovf := hR.no_ovf
  have hfr : s.allocation_area + s.occupied_slots * slot < U64 := by
    have h1 : s.occupied_slots * slot ≤
        (s.occupied_slots + s.free_slots_left) * slot :=
      Nat.mul_le_mul_right _ (by omega)
    omega
  constructor
  · intro ptr old_n new_n hptr hon hnW hfree hbW
    constructor
    · constructor
      · intro hsucc
        by_contra hne
        rw [extend_ne_fail E slot ptr old_n new_n s hbW hfr hne] at hsucc
        exact Bool.noConfusion hsucc
      · intro heq
        exact (extend_ok E slot ptr old_n new_n s hR hσ hptr hon hnW hfree heq).1
    · intro hsucc
      have heq : ptr + old_n * slot =
          s.allocation_area + s.occupied_slots * slot := by
        by_contra hne
        rw [extend_ne_fail E slot ptr old_n new_n s hbW hfr hne] at hsucc
        exact Bool.noConfusion hsucc
      obtain ⟨-, hocc, hfree2, hbeg, hend, harea, hps, hpg, hfnc, hsub, hR2⟩ :=
        extend_ok E slot ptr old_n new_n s hR hσ hptr hon hnW hfree heq
      refine ⟨hocc, hfree2, ?_⟩
      intro c hc
      obtain ⟨hp, -, -, -, -, -, -, -, -, -, -⟩ :=
        get_ok E slot c (extend_allocation E slot ptr old_n new_n s).2 hR2 hσ hc
      rw [hp, harea, hocc]
      congr 1
      have hms : (new_n - old_n) * slot = new_n * slot - old_n * slot :=
        Nat.sub_mul _ _ _
      have hle2 : old_n * slot ≤ new_n * slot := Nat.mul_le_mul_right _ hon
      rw [Nat.add_mul]
      omega
  · intro a b p q hb1 hpa hqb new_n
    have ha : a ≤ s.free_slots_left := by
      by_contra hna
      push_neg at hna
      rw [get_exhausted E slot a s hR.init_ne hna] at hpa
      simp at hpa
    obtain ⟨hp, hocc1, hfree1, hbeg1, hend1, harea1, hps1, hpg1, hfnc1, hsub1, hR1⟩ :=
      get_ok E slot a s hR hσ ha
    rw [hp] at hpa
    have hpv : p = s.allocation_area + s.occupied_slots * slot := by
      injection hpa with h
      exact h.symm
    have hb : b ≤ (get_allocation E slot a s).2.free_slots_left := by
      by_contra hnb
      push_neg at hnb
      rw [get_exhausted E slot b _ hR1.init_ne hnb] at hqb
      simp at hqb
    obtain ⟨hq, hocc2, hfree2, hbeg2, hend2, harea2, hps2, hpg2, hfnc2, hsub2, hR2⟩ :=
      get_ok E slot b (get_allocation E slot a s).2 hR1 hσ hb
    have hb1' : p + a * slot < U64 := by
      have h1 : (s.occupied_slots + a) * slot ≤
          (s.occupied_slots + s.free_slots_left) * slot :=
        Nat.mul_le_mul_right _ (by omega)
      have hexp : (s.occupied_slots + a) * slot =
          s.occupied_slots * slot + a * slot := Nat.add_mul _ _ _
      rw [hpv]
      omega
    have hb2' : (get_allocation E slot b (get_allocation E slot a s).2).2.allocation_area +
        (get_allocation E slot b (get_allocation E slot a s).2).2.occupied_slots * slot <
        U64 := by
      have hof2 := hR2.occ_free_lt
      have hcap2 := hR2.cap_le
      have hovf2 := hR2.no_ovf
      have hpp2 := hR2.ps_pos
      have h1 : (get_allocation E slot b (get_allocation E slot a s).2).2.occupied_slots *
          slot ≤
          ((get_allocation E slot b (get_allocation E slot a s).2).2.occupied_slots +
            (get_allocation E slot b (get_allocation E slot a s).2).2.free_slots_left) *
            slot :=
        Nat.mul_le_mul_right _ (by omega)
      omega
    have hne : p + a * slot ≠
        (get_allocation E slot b (get_allocation E slot a s).2).2.allocation_area +
          (get_allocation E slot b (get_allocation E slot a s).2).2.occupied_slots *
            slot := by
      rw [hpv, harea2, harea1, hocc2, hocc1]
      have hbs : 1 ≤ b * slot := by
        have := Nat.mul_le_mul hb1 hsp
        omega
      have hexp : (s.occupied_slots + a + b) * slot =
          s.occupied_slots * slot + a * slot + b * slot := by ring
      rw [hexp]
      omega
    exact extend_ne_fail E slot p a new_n
      (get_allocation E slot b (get_allocation E slot a s).2).2 hb1' hb2' hne

theorem extend_trailing_witness :
    Ready 8 s4 ∧ (∀ a, E0.mprot a = true) ∧ ExtendSpecConcl E0 8 s4 :=
  ⟨ready_s4, hσ0, extend_trailing_spec E0 8 s4 ready_s4 hσ0⟩
